import Mathlib

/-! Shallow embedding of the OpenSCAD export variable resolver
(`src/variableResolver.ts`): placeholder evaluation (`evaluateSingleVariable`),
pattern resolution (`resolveString`) and version-number scanning
(`getVersionNumber`), together with theorems about its behaviour.
Strings are modelled as lists of characters; the Node `path` collaborators are
modelled with posix semantics; the filesystem and the notifier collaborators
are explicit parameters and effect traces. -/

namespace VariableResolver

/-- Strings are modelled as lists of characters. -/
abbrev Str := List Char

/-- Turn a Lean string literal into the `Str` model. -/
def lit (s : String) : Str := s.toList

/-- Boolean test: the first list is a prefix of the second. -/
def hasPre : Str → Str → Bool
  | [], _ => true
  | _ :: _, [] => false
  | a :: p, b :: s => (a == b) && hasPre p s

/-- Boolean test: the first list occurs as a contiguous substring of the second. -/
def containsSub (needle : Str) : Str → Bool
  | [] => hasPre needle []
  | c :: rest => hasPre needle (c :: rest) || containsSub needle rest

/-- Boolean test: the first list is a suffix of the second. -/
def hasSuf (e s : Str) : Bool := hasPre e.reverse s.reverse

/-! Model of the Node `path` module (posix flavour), the external collaborator
used by the resolver for all path manipulation. -/

/-- Model of `path.isAbsolute` (posix): the path starts with a slash. -/
def isAbsolute : Str → Bool
  | [] => false
  | c :: _ => c == '/'

/-- Remove all trailing occurrences of a separator character. -/
def dropTrailSlash (s : Str) : Str := (s.reverse.dropWhile (fun c => c == '/')).reverse

/-- Split a list at its last occurrence of `ch` into the part before and after;
`none` when `ch` does not occur. -/
def splitLastChar (ch : Char) : Str → Option (Str × Str)
  | [] => none
  | c :: rest =>
    match splitLastChar ch rest with
    | some (a, b) => some (c :: a, b)
    | none => if c == ch then some ([], rest) else none

/-- Model of posix `path.basename` (one-argument form). -/
def basename (p : Str) : Str :=
  let t := dropTrailSlash p
  match splitLastChar '/' t with
  | some (_, b) => b
  | none => t

/-- Model of posix `path.dirname`. -/
def dirname (p : Str) : Str :=
  let t := dropTrailSlash p
  match splitLastChar '/' t with
  | none => if isAbsolute p then ['/'] else ['.']
  | some (a, _) =>
    let a2 := dropTrailSlash a
    if a2 = [] then ['/'] else a2

/-- Model of posix `path.extname`: the final dot-suffix of the basename, empty
when the basename has no dot or only a leading dot. -/
def extname (p : Str) : Str :=
  let bn := basename p
  match splitLastChar '.' bn with
  | none => []
  | some (before, after) => if before = [] then [] else '.' :: after

/-- Model of posix `path.basename(p, ext)`: the basename with `ext` removed
when it is a proper suffix of the basename. -/
def basenameExt (p ext : Str) : Str :=
  let bn := basename p
  if ext ≠ [] ∧ ext.length < bn.length ∧ hasSuf ext bn then
    bn.take (bn.length - ext.length)
  else bn

/-- Embedding of the exported helper `fileBasenameNoExt`: file name without
its extension, `path.basename(p, path.extname(p))` in the source. -/
def fileBasenameNoExt (p : Str) : Str := basenameExt p (extname p)

/-- Split a path into its slash-separated components, dropping empty ones. -/
def compsAux : Str → Str → List Str
  | [], cur => if cur = [] then [] else [cur.reverse]
  | '/' :: rest, cur => if cur = [] then compsAux rest [] else cur.reverse :: compsAux rest []
  | c :: rest, cur => compsAux rest (c :: cur)

/-- Path components of a path string. -/
def splitComps (s : Str) : List Str := compsAux s []

/-- Normalisation of path components: drop dot components and resolve
dot-dot components against a stack, keeping leading dot-dots of relative
paths. -/
def normAux (abs : Bool) : List Str → List Str → List Str
  | stack, [] => stack.reverse
  | stack, c :: rest =>
    if c = ['.'] then normAux abs stack rest
    else if c = ['.', '.'] then
      match stack with
      | [] => if abs then normAux abs [] rest else normAux abs [c] rest
      | top :: s2 =>
        if top = ['.', '.'] then normAux abs (c :: stack) rest else normAux abs s2 rest
    else normAux abs (c :: stack) rest

/-- Join path components with slashes. -/
def joinComps : List Str → Str
  | [] => []
  | [c] => c
  | c :: rest => c ++ '/' :: joinComps rest

/-- Model of posix `path.normalize`. -/
def normalizePath (p : Str) : Str :=
  let abs := isAbsolute p
  let body := joinComps (normAux abs [] (splitComps p))
  if abs then '/' :: body
  else if body = [] then ['.'] else body

/-- Model of posix `path.join` restricted to two segments, as used by the
resolver. -/
def joinPath (a b : Str) : Str :=
  if a = [] ∧ b = [] then ['.']
  else if a = [] then normalizePath b
  else if b = [] then normalizePath a
  else normalizePath (a ++ '/' :: b)

/-- Model of posix `path.relative` on already-absolute arguments: drop the
common component prefix, go up for the remaining source components, then down
the remaining target components. -/
def relAux : List Str → List Str → Str
  | [], [] => []
  | [], t => joinComps t
  | f, [] => joinComps (f.map (fun _ => ['.', '.']))
  | a :: f, b :: t =>
    if a = b then relAux f t
    else joinComps ((a :: f).map (fun _ => ['.', '.']) ++ b :: t)

/-- Model of posix `path.relative`. -/
def relative (f t : Str) : Str :=
  relAux (normAux true [] (splitComps f)) (normAux true [] (splitComps t))

/-! Characters, digits and decimal notation as used by the scanner. -/

/-- Boolean test for the regex character class of digits 0 to 9. -/
def isDigit (c : Char) : Bool := (48 ≤ c.toNat) && (c.toNat ≤ 57)

/-- Boolean test for the regex character class of digits 1 to 9. -/
def isNonZeroDigit (c : Char) : Bool := (49 ≤ c.toNat) && (c.toNat ≤ 57)

/-- Model of the JavaScript `Number` conversion on a captured digit string. -/
def strToNat (s : Str) : Nat := s.foldl (fun a c => a * 10 + (c.toNat - 48)) 0

/-- The decimal digit character for a value below ten. -/
def digitChar : Nat → Char
  | 0 => '0' | 1 => '1' | 2 => '2' | 3 => '3' | 4 => '4'
  | 5 => '5' | 6 => '6' | 7 => '7' | 8 => '8' | _ => '9'

/-- Fuelled decimal printer for naturals. -/
def natDigitsAux : Nat → Nat → Str
  | 0, _ => []
  | fuel + 1, n =>
    if n < 10 then [digitChar n] else natDigitsAux fuel (n / 10) ++ [digitChar (n % 10)]

/-- Decimal notation of a natural number, the JavaScript `String(n)`. -/
def natDigits (n : Nat) : Str := natDigitsAux (n + 1) n

/-! Model of JavaScript numbers as used by the scanner: an integer or NaN.
NaN arises when the derived regular expression has no capture group, because
`Number(undefined)` is NaN and `Math.max` propagates it. -/

/-- A JavaScript number produced by the scanner: an integer or NaN. -/
inductive JsNum where
  | num (v : Int)
  | nan
deriving DecidableEq

/-- Model of `Math.max` on scanner numbers: NaN is absorbing. -/
def jsMax : JsNum → JsNum → JsNum
  | .num a, .num b => .num (max a b)
  | _, _ => .nan

/-- Successor on scanner numbers. -/
def jsAdd1 : JsNum → JsNum
  | .num a => .num (a + 1)
  | .nan => .nan

/-- Model of the JavaScript comparison `v < 0`; false on NaN. -/
def jsLt0 : JsNum → Bool
  | .num a => decide (a < 0)
  | .nan => false

/-- Model of the JavaScript `String(v)` conversion on a scanner number. -/
def jsToString : JsNum → Str
  | .num v => if v < 0 then '-' :: natDigits v.natAbs else natDigits v.toNat
  | .nan => lit "NaN"

/-! The version marker and the version-matching regular expression.
The source builds `new RegExp` from
`escapeStringRegexp(path.basename(pattern)).replace("\\$\\{#\\}", "([1-9][0-9]*)")`:
every character of the basename is matched literally except that the first
occurrence of the version marker becomes the capture group, matching one or
more digits whose first digit is non-zero. The `RegExp` is unanchored and
`exec` returns its leftmost match, with the capture group greedy. -/

/-- The version marker token, the four characters dollar, open brace, hash,
close brace. -/
def markerStr : Str := ['$', '{', '#', '}']

/-- The two characters opening every placeholder. -/
def vOpen : Str := ['$', '{']

/-- The character closing every placeholder. -/
def vClose : Str := ['}']

/-- The placeholder text for a given placeholder name. -/
def phText (name : Str) : Str := vOpen ++ name ++ vClose

/-- Whether a string contains the version marker; the test
`pattern.match(VERSION_FORMAT)` of the source. -/
def containsMarker (s : Str) : Bool := containsSub markerStr s

/-- Split a string at the first occurrence of the version marker, into the
parts before and after it; `none` when the marker does not occur. -/
def splitMarker : Str → Option (Str × Str)
  | [] => none
  | c :: rest =>
    if hasPre markerStr (c :: rest) then some ([], rest.drop 3)
    else
      match splitMarker rest with
      | some (pre, post) => some (c :: pre, post)
      | none => none

/-- The derived version-matching regular expression: a literal prefix, the
digit capture group and a literal suffix when the basename contains the
marker, otherwise the whole escaped basename as a literal with no group. -/
inductive VRegex where
  | grouped (pre post : Str)
  | litOnly (l : Str)

/-- Build the version-matching regular expression from the basename of the
resolved pattern. -/
def buildRegex (bn : Str) : VRegex :=
  match splitMarker bn with
  | some (pre, post) => .grouped pre post
  | none => .litOnly bn

/-- Length of the maximal run of digit characters at the head of a string. -/
def digitRun : Str → Nat
  | [] => 0
  | c :: s => if isDigit c then digitRun s + 1 else 0

/-- Greedy backtracking for the capture group: try capture lengths from `k`
downwards until the literal suffix matches right after the capture; returns
the chosen capture length. -/
def tryLens (post rest : Str) : Nat → Option Nat
  | 0 => none
  | k + 1 => if hasPre post (rest.drop (k + 1)) then some (k + 1) else tryLens post rest k

/-- Match the derived regular expression at the current position only: the
literal prefix, then the greedy capture group of digits with non-zero first
digit, then the literal suffix; returns the captured value. -/
def matchAt (pre post s : Str) : Option Nat :=
  if hasPre pre s then
    match s.drop pre.length with
    | [] => none
    | c :: rest2 =>
      if isNonZeroDigit c then
        match tryLens post (c :: rest2) (digitRun (c :: rest2)) with
        | some k => some (strToNat ((c :: rest2).take k))
        | none => none
      else none
  else none

/-- Model of `RegExp.exec` for the derived expression: leftmost match over
all start positions, returning the captured value. -/
def execRe (pre post : Str) : Str → Option Nat
  | [] => matchAt pre post []
  | c :: rest =>
    match matchAt pre post (c :: rest) with
    | some n => some n
    | none => execRe pre post rest

/-! The filesystem collaborator and the effect trace of one scan. -/

/-- A filesystem operation performed by the scanner, in order: the existence
check, the single-level directory creation, the directory listing. -/
inductive FsOp where
  | existsCheck (p : Str)
  | mkdir (p : Str)
  | readdir (p : Str)
deriving DecidableEq

/-- The filesystem collaborator: an existence test and a listing that either
fails or returns the entry names of a directory. -/
structure Fs where
  existsDir : Str → Bool
  readdirRes : Str → Except Unit (List Str)

/-- A JavaScript exception escaping the resolver: the TypeError thrown by the
non-null assertion on the workspace lookup, or an awaited promise rejected
with a numeric reason. -/
inductive JsErr where
  | typeError
  | rejected (v : Int)
deriving DecidableEq

deriving instance DecidableEq for Except

/-- The destination directory of the scan: the directory component of the
pattern when absolute, otherwise the pattern resolved against the directory
of the context file. -/
def exportDir (pattern res : Str) : Str :=
  if isAbsolute pattern then dirname pattern
  else dirname (joinPath (dirname res) pattern)

/-- One step of the `files.reduce` fold: on a regex match, take the maximum
of the accumulator and the captured number (`Number(matched[1])`, which is
NaN when the expression has no capture group). -/
def scanStep (re : VRegex) (maxVer : JsNum) (file : Str) : JsNum :=
  match re with
  | .grouped pre post =>
    match execRe pre post file with
    | some n => jsMax maxVer (.num n)
    | none => maxVer
  | .litOnly l => if containsSub l file then jsMax maxVer .nan else maxVer

/-- Embedding of `getVersionNumber`. Returns the scanner outcome together
with the trace of filesystem operations performed. The error case models the
promise rejected with -2 by the `readdir` callback, which the source awaits
without a catch, so the rejection escapes as an exception. -/
def getVersionNumber (pattern res : Str) (fs : Fs) : Except Int JsNum × List FsOp :=
  if containsMarker pattern then
    let re := buildRegex (basename pattern)
    let d := exportDir pattern res
    let ops := (FsOp.existsCheck d :: (if fs.existsDir d then [] else [FsOp.mkdir d]))
      ++ [FsOp.readdir d]
    match fs.readdirRes d with
    | .error _ => (.error (-2), ops)
    | .ok files =>
      let lastVersion := files.foldl (scanStep re) (.num 0)
      (if jsLt0 lastVersion then .ok lastVersion else .ok (jsAdd1 lastVersion), ops)
  else (.ok (.num (-1)), [])

/-! The placeholder evaluator. -/

/-- Embedding of `evaluateSingleVariable`. The source begins with
`vscode.workspace.getWorkspaceFolder(resource)!.uri.fsPath`, so when the
workspace lookup returns nothing the non-null assertion dereference throws a
TypeError before the switch is reached; this is the error case. The optional
`exportExt` argument defaults to the string `scad` when absent. -/
def evaluateSingleVariable (mtch varName res : Str) (ws : Option Str)
    (exportExt : Option Str) : Except JsErr Str :=
  match ws with
  | none => .error .typeError
  | some workspaceFolder =>
    let exportExtV := exportExt.getD (lit "scad")
    .ok <|
      if varName = lit "workspaceFolder" then
        if workspaceFolder = [] then mtch else workspaceFolder
      else if varName = lit "workspaceFolderBasename" then
        if basename workspaceFolder = [] then mtch else basename workspaceFolder
      else if varName = lit "file" then res
      else if varName = lit "relativeFile" then relative workspaceFolder res
      else if varName = lit "relativeFileDirname" then basename (dirname res)
      else if varName = lit "fileBasename" then basename res
      else if varName = lit "fileBasenameNoExtension" then fileBasenameNoExt res
      else if varName = lit "fileDirname" then dirname res
      else if varName = lit "fileExtname" then extname res
      else if varName = lit "exportExtension" then
        if exportExtV ≠ [] then exportExtV else mtch
      else mtch

/-! The pattern resolver. -/

/-- Scan for the closing brace of a placeholder: the characters of the
non-greedy capture up to the first closing brace, and the remainder after it;
fails at the end of the string or at a newline, which the regex dot does not
match. -/
def takeVarName : Str → Option (Str × Str)
  | [] => none
  | c :: rest =>
    if c = '}' then some ([], rest)
    else if c = '\n' then none
    else
      match takeVarName rest with
      | some (nm, after) => some (c :: nm, after)
      | none => none

/-- Fuelled global replacement of all placeholder matches, invoking the
evaluator callback on each; an exception thrown by the callback escapes. -/
def replaceVarsAux (ev : Str → Str → Except JsErr Str) : Nat → Str → Except JsErr Str
  | _, [] => .ok []
  | 0, s => .ok s
  | fuel + 1, '$' :: '{' :: r2 =>
    match takeVarName r2 with
    | some (nm, after) =>
      match ev (phText nm) nm with
      | .error e => .error e
      | .ok v =>
        match replaceVarsAux ev fuel after with
        | .error e => .error e
        | .ok r => .ok (v ++ r)
    | none =>
      match replaceVarsAux ev fuel ('{' :: r2) with
      | .error e => .error e
      | .ok r => .ok ('$' :: r)
  | fuel + 1, c :: rest =>
    match replaceVarsAux ev fuel rest with
    | .error e => .error e
    | .ok r => .ok (c :: r)

/-- Model of `pattern.replace(VARIABLE_REGEXP, callback)`: replace every
non-overlapping placeholder match, left to right. -/
def replaceVarsE (ev : Str → Str → Except JsErr Str) (s : Str) : Except JsErr Str :=
  replaceVarsAux ev s.length s

/-- Fuelled global replacement of every occurrence of the version marker. -/
def replaceMarkerAux (repl : Str) : Nat → Str → Str
  | _, [] => []
  | 0, s => s
  | fuel + 1, c :: rest =>
    if hasPre markerStr (c :: rest) then repl ++ replaceMarkerAux repl fuel (rest.drop 3)
    else c :: replaceMarkerAux repl fuel rest

/-- Model of `replaced.replace(VERSION_FORMAT, repl)` with the global flag:
every occurrence of the version marker is replaced. -/
def replaceMarkerAll (repl s : Str) : Str := replaceMarkerAux repl s.length s

/-- The default naming pattern of the resolver. -/
def defaultPattern : Str :=
  phText (lit "fileBasenameNoExtension") ++ ['.'] ++ phText (lit "exportExtension")

/-- The error message shown by the notifier in the scan-failure branch. -/
def errorMsgStr : Str := lit "Could not read files in directory specified for export"

/-- Embedding of the public entry point `resolveString`. Besides the result
(or escaping exception) it returns the messages passed to the notifier
collaborator and the trace of filesystem operations. A rejection of the
awaited scanner promise escapes, because the source has no catch around
either await. -/
def resolveString (pattern : Option Str) (res : Str) (ws : Option Str)
    (exportExt : Option Str) (fs : Fs) : Except JsErr Str × List Str × List FsOp :=
  let p := pattern.getD defaultPattern
  match replaceVarsE (fun m v => evaluateSingleVariable m v res ws exportExt) p with
  | .error e => (.error e, [], [])
  | .ok replaced =>
    match getVersionNumber replaced res fs with
    | (.error v, ops) => (.error (.rejected v), [], ops)
    | (.ok version, ops) =>
      if version = JsNum.num (-1) then (.ok replaced, [], ops)
      else if version = JsNum.num (-2) then (.ok replaced, [errorMsgStr], ops)
      else (.ok (replaceMarkerAll (jsToString version) replaced), [], ops)

/-- The placeholder names enumerated by the evaluator switch. -/
def supportedNames : List Str :=
  [lit "workspaceFolder", lit "workspaceFolderBasename", lit "file",
   lit "relativeFile", lit "relativeFileDirname", lit "fileBasename",
   lit "fileBasenameNoExtension", lit "fileDirname", lit "fileExtname",
   lit "exportExtension", ['#']]

/-- A filesystem whose directories all exist and list the given entries. -/
def fsWith (entries : List Str) : Fs := ⟨fun _ => true, fun _ => .ok entries⟩

/-- A filesystem whose directories exist but cannot be listed. -/
def fsErr : Fs := ⟨fun _ => true, fun _ => .error ()⟩

/-- A filesystem with no directories, listing the given entries after
creation. -/
def fsAbsent (entries : List Str) : Fs := ⟨fun _ => false, fun _ => .ok entries⟩

/-- The maximum, over the listed entries, of the numbers captured by the
grouped version regex, starting from the default 0; the value computed by the
`files.reduce` call of the source. -/
def captureMax (pre post : Str) (files : List Str) : Int :=
  files.foldl
    (fun m f => match execRe pre post f with | some n => max m (n : Int) | none => m) 0

/-- A concrete pattern with one placeholder and two version markers. -/
def c9Pat : Str :=
  phText (lit "fileBasenameNoExtension") ++ ['_'] ++ markerStr ++ ['_'] ++ markerStr ++ lit ".stl"

/-- The intermediate string obtained from `c9Pat` for the file part.scad. -/
def c9Replaced : Str := lit "part_" ++ markerStr ++ ['_'] ++ markerStr ++ lit ".stl"

/-! Helper lemmas about prefixes, digit runs and the greedy capture. -/

/-- A prefix test succeeds exactly when the string extends the pattern. -/
theorem hasPre_iff_append : ∀ (p s : Str), hasPre p s = true ↔ ∃ t, s = p ++ t := by
  intro p
  induction p with
  | nil =>
    intro s
    constructor
    · intro _; exact ⟨s, rfl⟩
    · intro _; rfl
  | cons a p ih =>
    intro s
    cases s with
    | nil => simp [hasPre]
    | cons b s' =>
      simp only [hasPre, Bool.and_eq_true, beq_iff_eq, ih s', List.cons_append, List.cons.injEq]
      constructor
      · rintro ⟨rfl, t, rfl⟩; exact ⟨t, rfl, rfl⟩
      · rintro ⟨t, rfl, rfl⟩; exact ⟨rfl, t, rfl⟩

/-- A successful prefix test bounds the pattern length. -/
theorem hasPre_length (p s : Str) (h : hasPre p s = true) : p.length ≤ s.length := by
  obtain ⟨t, rfl⟩ := (hasPre_iff_append p s).1 h
  simp

/-- A prefix test is preserved by extending the string on the right. -/
theorem hasPre_append_right (p r s : Str) (h : hasPre p r = true) :
    hasPre p (r ++ s) = true := by
  obtain ⟨t, rfl⟩ := (hasPre_iff_append p r).1 h
  exact (hasPre_iff_append p _).2 ⟨t ++ s, by simp⟩

/-- The digit run is bounded by the string length. -/
theorem digitRun_le_length : ∀ s : Str, digitRun s ≤ s.length := by
  intro s
  induction s with
  | nil => simp [digitRun]
  | cons c rest ih =>
    rw [digitRun]
    split
    · simpa using ih
    · simp

/-- The digit run does not shrink under extension on the right. -/
theorem digitRun_append_ge : ∀ (a b : Str), digitRun a ≤ digitRun (a ++ b) := by
  intro a b
  induction a with
  | nil => simp [digitRun]
  | cons c rest ih =>
    simp only [List.cons_append, digitRun]
    split
    · exact Nat.succ_le_succ ih
    · exact Nat.zero_le _

/-- A successful greedy search yields a positive capture length within the
bound whose residue carries the literal suffix. -/
theorem tryLens_sound (post r : Str) :
    ∀ m k, tryLens post r m = some k →
      1 ≤ k ∧ k ≤ m ∧ hasPre post (r.drop k) = true := by
  intro m
  induction m with
  | zero => intro k h; exact absurd h (by simp [tryLens])
  | succ m ih =>
    intro k h
    rw [tryLens] at h
    split at h
    · next hc =>
        injection h with h'
        subst h'
        exact ⟨by omega, le_rfl, hc⟩
    · obtain ⟨hk1, hk2, hk3⟩ := ih k h
      exact ⟨hk1, by omega, hk3⟩

/-- The greedy search succeeds whenever some positive capture length within
the bound works. -/
theorem tryLens_found (post r : Str) :
    ∀ m j, 1 ≤ j → j ≤ m → hasPre post (r.drop j) = true →
      (tryLens post r m).isSome = true := by
  intro m
  induction m with
  | zero => intro j h1 h2 _; omega
  | succ m ih =>
    intro j h1 h2 h3
    rw [tryLens]
    split
    · rfl
    · next hc =>
        refine ih j h1 ?_ h3
        rcases Nat.eq_or_lt_of_le h2 with rfl | hlt
        · exact absurd h3 hc
        · omega

/-- The decimal accumulator never falls back below one. -/
theorem foldl_digit_ge_one :
    ∀ (d : Str) (a : Nat), 1 ≤ a →
      1 ≤ d.foldl (fun x c => x * 10 + (c.toNat - 48)) a := by
  intro d
  induction d with
  | nil => intro a ha; simpa using ha
  | cons c t ih =>
    intro a ha
    simp only [List.foldl_cons]
    exact ih _ (by omega)

/-- A digit string with a non-zero first digit denotes a positive number. -/
theorem strToNat_cons_ge_one (c : Char) (d : Str) (hc : isNonZeroDigit c = true) :
    1 ≤ strToNat (c :: d) := by
  simp only [isNonZeroDigit, Bool.and_eq_true, decide_eq_true_eq] at hc
  simp only [strToNat, List.foldl_cons]
  exact foldl_digit_ge_one d _ (by omega)

/-- Any value captured by a position match is positive. -/
theorem matchAt_ge_one (pre post s : Str) (n : Nat) (h : matchAt pre post s = some n) :
    1 ≤ n := by
  rw [matchAt] at h
  by_cases hpre : hasPre pre s = true
  case neg => rw [if_neg hpre] at h; exact absurd h (by simp)
  rw [if_pos hpre] at h
  rcases hdrop : s.drop pre.length with _ | ⟨c, rest2⟩ <;> rw [hdrop] at h <;>
    dsimp only at h
  · exact absurd h (by simp)
  by_cases hnz : isNonZeroDigit c = true
  case neg => rw [if_neg hnz] at h; exact absurd h (by simp)
  rw [if_pos hnz] at h
  rcases htl : tryLens post (c :: rest2) (digitRun (c :: rest2)) with _ | k <;> rw [htl] at h
  · exact absurd h (by simp)
  injection h with h'
  subst h'
  obtain ⟨hk1, _, _⟩ := tryLens_sound post (c :: rest2) _ k htl
  obtain ⟨k', rfl⟩ : ∃ k', k = k' + 1 := ⟨k - 1, by omega⟩
  rw [List.take_succ_cons]
  exact strToNat_cons_ge_one c _ hnz

/-- A successful search admits a position at which the match succeeds with
the same capture. -/
theorem execRe_some_matchAt (pre post : Str) :
    ∀ (s : Str) (n : Nat), execRe pre post s = some n →
      ∃ i, i ≤ s.length ∧ matchAt pre post (s.drop i) = some n := by
  intro s
  induction s with
  | nil => intro n h; exact ⟨0, by simp, h⟩
  | cons c rest ih =>
    intro n h
    rw [execRe] at h
    split at h
    · next m hm =>
        injection h with h'
        subst h'
        exact ⟨0, by simp, hm⟩
    · obtain ⟨i, hi, hmi⟩ := ih n h
      exact ⟨i + 1, by simpa using hi, by simpa using hmi⟩

/-- The search succeeds whenever the match succeeds at some position. -/
theorem execRe_of_matchAt (pre post : Str) :
    ∀ (s : Str) (i : Nat), (matchAt pre post (s.drop i)).isSome = true →
      (execRe pre post s).isSome = true := by
  intro s
  induction s with
  | nil =>
    intro i h
    simp only [List.drop_nil] at h
    simpa [execRe] using h
  | cons c rest ih =>
    intro i h
    rw [execRe]
    cases i with
    | zero =>
      simp only [List.drop_zero] at h
      split
      · rfl
      · next hnone => rw [hnone] at h; simp at h
    | succ j =>
      simp only [List.drop_succ_cons] at h
      split
      · rfl
      · exact ih j h

/-- A position match survives extending the string on the right. -/
theorem matchAt_append_right (pre post r s : Str) (n : Nat)
    (h : matchAt pre post r = some n) :
    (matchAt pre post (r ++ s)).isSome = true := by
  rw [matchAt] at h
  by_cases hpre : hasPre pre r = true
  case neg => rw [if_neg hpre] at h; exact absurd h (by simp)
  rw [if_pos hpre] at h
  rcases hdrop : r.drop pre.length with _ | ⟨c, rest2⟩ <;> rw [hdrop] at h <;>
    dsimp only at h
  · exact absurd h (by simp)
  by_cases hnz : isNonZeroDigit c = true
  case neg => rw [if_neg hnz] at h; exact absurd h (by simp)
  rw [if_pos hnz] at h
  rcases htl : tryLens post (c :: rest2) (digitRun (c :: rest2)) with _ | k <;> rw [htl] at h
  · exact absurd h (by simp)
  obtain ⟨hk1, hk2, hk3⟩ := tryLens_sound post (c :: rest2) _ k htl
  have hlen : pre.length ≤ r.length := hasPre_length pre r hpre
  have hdrop2 : (r ++ s).drop pre.length = (c :: rest2) ++ s := by
    rw [List.drop_append_of_le_length hlen, hdrop]
  rw [matchAt, if_pos (hasPre_append_right pre r s hpre), hdrop2]
  simp only [List.cons_append]
  rw [if_pos hnz]
  have hkr : k ≤ (c :: rest2).length := le_trans hk2 (digitRun_le_length _)
  have hpost : hasPre post (((c :: rest2) ++ s).drop k) = true := by
    rw [List.drop_append_of_le_length hkr]
    exact hasPre_append_right post _ s hk3
  have hfound := tryLens_found post ((c :: rest2) ++ s)
    (digitRun ((c :: rest2) ++ s)) k hk1
    (le_trans hk2 (digitRun_append_ge (c :: rest2) s)) hpost
  simp only [List.cons_append] at hfound
  rcases hf : tryLens post (c :: (rest2 ++ s)) (digitRun (c :: (rest2 ++ s))) with _ | k2
  · rw [hf] at hfound; simp at hfound
  · simp

/-! Helper lemmas about the scanner fold. -/

/-- The reduce fold with a grouped regex stays numeric and computes the
running maximum of the captured values. -/
theorem foldl_scanStep (pre post : Str) :
    ∀ (files : List Str) (a : Int),
      files.foldl (scanStep (.grouped pre post)) (.num a)
        = .num (files.foldl
            (fun m f => match execRe pre post f with | some n => max m (n : Int) | none => m)
            a) := by
  intro files
  induction files with
  | nil => intro a; rfl
  | cons f t ih =>
    intro a
    simp only [List.foldl_cons]
    have hstep : scanStep (.grouped pre post) (.num a) f
        = .num (match execRe pre post f with | some n => max a (n : Int) | none => a) := by
      simp only [scanStep]
      rcases execRe pre post f with _ | n <;> simp [jsMax]
    rw [hstep, ih]

/-- The running maximum never falls below a non-negative start. -/
theorem foldl_step_nonneg (pre post : Str) :
    ∀ (files : List Str) (a : Int), 0 ≤ a →
      0 ≤ files.foldl
          (fun m f => match execRe pre post f with | some n => max m (n : Int) | none => m)
          a := by
  intro files
  induction files with
  | nil => intro a ha; simpa using ha
  | cons f t ih =>
    intro a ha
    simp only [List.foldl_cons]
    apply ih
    rcases execRe pre post f with _ | n
    · simpa using ha
    · exact le_trans ha (le_max_left _ _)

/-! Helper lemmas about the placeholder scan. -/

/-- Scanning a brace-free, newline-free name followed by a closing brace
captures exactly that name and leaves nothing behind. -/
theorem takeVarName_close :
    ∀ (nm : Str), '}' ∉ nm → '\n' ∉ nm → takeVarName (nm ++ ['}']) = some (nm, []) := by
  intro nm
  induction nm with
  | nil => intro _ _; rfl
  | cons c t ih =>
    intro hc hnl
    simp only [List.mem_cons, not_or] at hc hnl
    simp only [List.cons_append, takeVarName]
    rw [if_neg (fun h => hc.1 h.symm), if_neg (fun h => hnl.1 h.symm)]
    simp only [List.append_eq]
    rw [ih hc.2 hnl.2]

/-- The global placeholder replacement on a single placeholder is exactly one
evaluator call. -/
theorem replaceVarsE_placeholder (ev : Str → Str → Except JsErr Str) (name out : Str)
    (hc : '}' ∉ name) (hnl : '\n' ∉ name) (hev : ev (phText name) name = .ok out) :
    replaceVarsE ev (phText name) = .ok out := by
  have hph : phText name = '$' :: '{' :: (name ++ ['}']) := rfl
  have hl : (phText name).length = name.length + 2 + 1 := by
    rw [hph]; simp
  rw [replaceVarsE, hl, hph]
  simp only [replaceVarsAux]
  rw [takeVarName_close name hc hnl]
  dsimp only
  rw [hev]
  dsimp only
  simp only [replaceVarsAux]
  simp

/-! Helper lemmas about the version-marker replacement: digits never
reconstitute a marker. -/

/-- Every character emitted by the decimal printer is a digit. -/
theorem digitChar_isDigit : ∀ d, isDigit (digitChar d) = true := by
  intro d
  match d with
  | 0 => rfl
  | 1 => rfl
  | 2 => rfl
  | 3 => rfl
  | 4 => rfl
  | 5 => rfl
  | 6 => rfl
  | 7 => rfl
  | 8 => rfl
  | _ + 9 => rfl

/-- Every character of a printed natural is a digit. -/
theorem natDigitsAux_digits :
    ∀ (fuel n : Nat), ∀ c ∈ natDigitsAux fuel n, isDigit c = true := by
  intro fuel
  induction fuel with
  | zero => intro n c hc; simp [natDigitsAux] at hc
  | succ fuel ih =>
    intro n c hc
    rw [natDigitsAux] at hc
    split at hc
    · simp only [List.mem_singleton] at hc
      subst hc
      exact digitChar_isDigit n
    · rw [List.mem_append] at hc
      rcases hc with hc | hc
      · exact ih _ c hc
      · simp only [List.mem_singleton] at hc
        subst hc
        exact digitChar_isDigit _

/-- The fuelled decimal printer emits at least one character. -/
theorem natDigitsAux_ne_nil :
    ∀ (fuel n : Nat), 1 ≤ fuel → natDigitsAux fuel n ≠ [] := by
  intro fuel n hf
  rcases fuel with _ | fuel
  · omega
  rw [natDigitsAux]
  split
  · simp
  · simp

/-- Every character of the decimal notation of a natural is a digit. -/
theorem natDigits_digits (n : Nat) : ∀ c ∈ natDigits n, isDigit c = true :=
  natDigitsAux_digits (n + 1) n

/-- The decimal notation of a natural is never empty. -/
theorem natDigits_ne_nil (n : Nat) : natDigits n ≠ [] :=
  natDigitsAux_ne_nil (n + 1) n (by omega)

/-- A digit character is none of the four marker characters. -/
theorem isDigit_ne_marker (c : Char) (h : isDigit c = true) :
    c ≠ '$' ∧ c ≠ '{' ∧ c ≠ '#' ∧ c ≠ '}' := by
  refine ⟨?_, ?_, ?_, ?_⟩ <;> rintro rfl <;> exact absurd h (by decide)

/-- Prepending a dollar-free block neither creates nor hides a marker
occurrence. -/
theorem containsSub_append_nodollar :
    ∀ (repl t : Str), (∀ c ∈ repl, c ≠ '$') →
      containsSub markerStr (repl ++ t) = containsSub markerStr t := by
  intro repl
  induction repl with
  | nil => intro t _; rfl
  | cons c r ih =>
    intro t hd
    simp only [List.cons_append, containsSub, List.append_eq]
    have h1 : hasPre markerStr (c :: (r ++ t)) = false := by
      rcases hp : hasPre markerStr (c :: (r ++ t)) with _ | _
      · rfl
      · exfalso
        obtain ⟨u, hu⟩ := (hasPre_iff_append _ _).1 hp
        have : c = '$' := by
          have := congrArg List.head? hu
          simpa [markerStr] using this
        exact hd c (by simp) this
    rw [h1, Bool.false_or]
    exact ih t (fun x hx => hd x (by simp [hx]))

/-- The marker replacement on a marker-free head emits that head unchanged. -/
theorem replaceMarkerAux_cons_nomark (repl : Str) (fuel : Nat) (x : Char) (xs : Str)
    (hm : hasPre markerStr (x :: xs) = false) :
    replaceMarkerAux repl (fuel + 1) (x :: xs) = x :: replaceMarkerAux repl fuel xs := by
  simp [replaceMarkerAux, hm]

/-- When the replacement block is a non-empty digit string, a non-digit head
of the output comes verbatim from the input, whose tail is processed with one
less fuel. -/
theorem aux_cons_structure (repl : Str) (h0 : repl ≠ [])
    (hd : ∀ c ∈ repl, isDigit c = true) :
    ∀ (fuel : Nat) (xs : Str), xs.length ≤ fuel →
      ∀ (d : Char) (out : Str), isDigit d = false →
        replaceMarkerAux repl fuel xs = d :: out →
        ∃ xs', xs = d :: xs' ∧ xs'.length ≤ fuel - 1 ∧
          replaceMarkerAux repl (fuel - 1) xs' = out := by
  intro fuel xs hlen d out hdig hout
  rcases fuel with _ | f
  · have hxs : xs = [] := List.length_eq_zero.1 (Nat.le_zero.1 hlen)
    subst hxs
    exact absurd hout (by simp [replaceMarkerAux])
  rcases xs with _ | ⟨x, xs1⟩
  · exact absurd hout (by simp [replaceMarkerAux])
  by_cases hpm : hasPre markerStr (x :: xs1) = true
  · exfalso
    rw [show replaceMarkerAux repl (f + 1) (x :: xs1)
        = repl ++ replaceMarkerAux repl f (xs1.drop 3) from by simp [replaceMarkerAux, hpm]]
      at hout
    rcases hr : repl with _ | ⟨c0, r0⟩
    · exact h0 hr
    · rw [hr, List.cons_append] at hout
      injection hout with hx _
      have hcd := hd c0 (by rw [hr]; simp)
      rw [hx] at hcd
      rw [hcd] at hdig
      cases hdig
  · rw [replaceMarkerAux_cons_nomark repl f x xs1 (Bool.not_eq_true _ ▸ hpm)] at hout
    injection hout with hx hout2
    subst hx
    refine ⟨xs1, rfl, ?_, hout2.symm ▸ rfl⟩
    simp only [List.length_cons] at hlen
    omega

/-- The fuelled marker replacement with a non-empty all-digit replacement
block leaves no marker occurrence in its output. -/
theorem replaceMarkerAux_no_marker (repl : Str) (h0 : repl ≠ [])
    (hd : ∀ c ∈ repl, isDigit c = true) :
    ∀ (fuel : Nat) (s : Str), s.length ≤ fuel →
      containsSub markerStr (replaceMarkerAux repl fuel s) = false := by
  intro fuel
  induction fuel with
  | zero =>
    intro s hs
    have hsnil : s = [] := List.length_eq_zero.1 (Nat.le_zero.1 hs)
    subst hsnil
    rfl
  | succ fuel ih =>
    intro s hs
    rcases s with _ | ⟨x, xs⟩
    · rfl
    simp only [List.length_cons] at hs
    have hxs : xs.length ≤ fuel := by omega
    by_cases hm : hasPre markerStr (x :: xs) = true
    · rw [show replaceMarkerAux repl (fuel + 1) (x :: xs)
          = repl ++ replaceMarkerAux repl fuel (xs.drop 3) from by simp [replaceMarkerAux, hm]]
      rw [containsSub_append_nodollar repl _ (fun c hc => (isDigit_ne_marker c (hd c hc)).1)]
      exact ih (xs.drop 3) (le_trans (by simp) hxs)
    · rw [replaceMarkerAux_cons_nomark repl fuel x xs (Bool.not_eq_true _ ▸ hm)]
      rw [containsSub]
      rw [ih xs hxs, Bool.or_false]
      rcases hpx : hasPre markerStr (x :: replaceMarkerAux repl fuel xs) with _ | _
      · rfl
      exfalso
      obtain ⟨t, ht⟩ := (hasPre_iff_append _ _).1 hpx
      rw [show markerStr ++ t = '$' :: '{' :: '#' :: '}' :: t from rfl] at ht
      injection ht with hx hO
      obtain ⟨xs1, hxs1, hlen1, hout1⟩ :=
        aux_cons_structure repl h0 hd fuel xs hxs '{' ('#' :: '}' :: t) (by decide) hO
      obtain ⟨xs2, hxs2, hlen2, hout2⟩ :=
        aux_cons_structure repl h0 hd (fuel - 1) xs1 hlen1 '#' ('}' :: t) (by decide) hout1
      obtain ⟨xs3, hxs3, _, _⟩ :=
        aux_cons_structure repl h0 hd (fuel - 1 - 1) xs2 hlen2 '}' t (by decide) hout2
      apply hm
      subst hx hxs1 hxs2 hxs3
      exact (hasPre_iff_append markerStr _).2 ⟨xs3, rfl⟩

/-- Replacing every marker occurrence by a non-empty digit string produces a
marker-free result. -/
theorem replaceMarkerAll_no_marker (repl s : Str) (h0 : repl ≠ [])
    (hd : ∀ c ∈ repl, isDigit c = true) :
    containsSub markerStr (replaceMarkerAll repl s) = false :=
  replaceMarkerAux_no_marker repl h0 hd s.length s le_rfl

/-! The claims. -/

/-- Claim C1, behaviour of the code at the failing input. When the listing of
the destination directory fails, the `readdir` callback rejects the awaited
promise with -2; neither `getVersionNumber` nor `resolveString` has a catch,
so the rejection escapes `resolveString` as an exception: the intermediate
string is not returned and the notifier is never invoked (the notification
list is empty), contrary to the claim. -/
theorem c1_listing_failure_rejects :
    resolveString
        (some (phText (lit "fileBasenameNoExtension") ++ lit "_v" ++ markerStr ++ lit ".stl"))
        (lit "/proj/src/part.scad") (some (lit "/proj")) (some (lit "stl")) fsErr
      = (.error (.rejected (-2)), [],
         [FsOp.existsCheck (lit "/proj/src"), FsOp.readdir (lit "/proj/src")]) := by
  decide

/-- Claim C2, behaviour of the code at the failing input. When the project
root cannot be determined, `evaluateSingleVariable` dereferences the non-null
assertion `getWorkspaceFolder(resource)!` and throws a TypeError before the
switch, for the workspace-relative placeholders (and indeed every
placeholder), instead of returning the unresolved placeholder text. -/
theorem c2_no_workspace_throws :
    evaluateSingleVariable (phText (lit "workspaceFolder")) (lit "workspaceFolder")
        (lit "/tmp/part.scad") none (some (lit "stl")) = .error .typeError
  ∧ evaluateSingleVariable (phText (lit "workspaceFolderBasename"))
        (lit "workspaceFolderBasename") (lit "/tmp/part.scad") none (some (lit "stl"))
      = .error .typeError
  ∧ evaluateSingleVariable (phText (lit "relativeFile")) (lit "relativeFile")
        (lit "/tmp/part.scad") none (some (lit "stl")) = .error .typeError := by
  exact ⟨rfl, rfl, rfl⟩

/-- Claim C3, counterexample. With no override supplied, the parameter
defaults to the string scad, which is truthy, so the evaluator returns scad
and not the original placeholder text as the claim states. -/
theorem c3_counterexample :
    evaluateSingleVariable (phText (lit "exportExtension")) (lit "exportExtension")
        (lit "/proj/src/part.scad") (some (lit "/proj")) none = .ok (lit "scad")
  ∧ evaluateSingleVariable (phText (lit "exportExtension")) (lit "exportExtension")
        (lit "/proj/src/part.scad") (some (lit "/proj")) none
      ≠ .ok (phText (lit "exportExtension")) := by
  constructor
  · decide
  · decide

/-- Claim C3 as amended. For the name exportExtension the evaluator returns a
supplied override when it is non-empty and falls through to the original
placeholder text when the supplied override is empty; when no override is
supplied at all, the parameter defaults to scad and scad is returned. -/
theorem c3_export_extension_amended :
    ∀ (mtch res w e : Str),
      evaluateSingleVariable mtch (lit "exportExtension") res (some w) (some e)
        = .ok (if e ≠ [] then e else mtch)
    ∧ evaluateSingleVariable mtch (lit "exportExtension") res (some w) none
        = .ok (lit "scad") := by
  intro mtch res w e
  constructor
  · simp +decide [evaluateSingleVariable]
  · simp +decide [evaluateSingleVariable]

/-- Claim C4. When the destination listing succeeds and the basename of the
intermediate pattern contains the version marker, the scanner resolves to the
maximum of the captured numbers (default 0) plus one; gaps play no role. -/
theorem c4_scanner_max_plus_one :
    ∀ (pattern res : Str) (fs : Fs) (pre post : Str) (files : List Str),
      containsMarker pattern = true →
      splitMarker (basename pattern) = some (pre, post) →
      fs.readdirRes (exportDir pattern res) = .ok files →
      (getVersionNumber pattern res fs).1 = .ok (.num (captureMax pre post files + 1)) := by
  intro pattern res fs pre post files hm hsp hrd
  simp only [getVersionNumber, hm, if_true, buildRegex, hsp, hrd]
  rw [foldl_scanStep pre post files 0]
  have h0 : 0 ≤ captureMax pre post files := foldl_step_nonneg pre post files 0 le_rfl
  rw [show (files.foldl
      (fun m f => match execRe pre post f with | some n => max m (n : Int) | none => m) 0)
      = captureMax pre post files from rfl]
  simp [jsLt0, jsAdd1, not_lt.2 h0]

/-- Witness for claim C4: captured numbers 1, 2, 5 give next version 6, and
an empty directory gives next version 1. -/
theorem c4_witness :
    (getVersionNumber (lit "part_v" ++ markerStr ++ lit ".stl") (lit "/proj/src/part.scad")
        (fsWith [lit "part_v1.stl", lit "part_v2.stl", lit "part_v5.stl"])).1 = .ok (.num 6)
  ∧ (getVersionNumber (lit "part_v" ++ markerStr ++ lit ".stl") (lit "/proj/src/part.scad")
        (fsWith [])).1 = .ok (.num 1) := by
  constructor
  · rw [c4_scanner_max_plus_one (lit "part_v" ++ markerStr ++ lit ".stl")
      (lit "/proj/src/part.scad")
      (fsWith [lit "part_v1.stl", lit "part_v2.stl", lit "part_v5.stl"])
      (lit "part_v") (lit ".stl") [lit "part_v1.stl", lit "part_v2.stl", lit "part_v5.stl"]
      (by decide) (by decide) rfl]
    decide
  · rw [c4_scanner_max_plus_one (lit "part_v" ++ markerStr ++ lit ".stl")
      (lit "/proj/src/part.scad") (fsWith []) (lit "part_v") (lit ".stl") []
      (by decide) (by decide) rfl]
    decide

/-- Claim C5. When the intermediate string contains no version marker, the
resolver returns it unchanged with an empty filesystem trace; the scanner
reports the not-requested sentinel -1 before performing any operation. -/
theorem c5_no_marker_no_io :
    ∀ (pattern : Option Str) (res : Str) (ws : Option Str) (ee : Option Str) (fs : Fs)
      (replaced : Str),
      replaceVarsE (fun m v => evaluateSingleVariable m v res ws ee)
          (pattern.getD defaultPattern) = .ok replaced →
      containsMarker replaced = false →
      resolveString pattern res ws ee fs = (.ok replaced, [], [])
    ∧ getVersionNumber replaced res fs = (.ok (.num (-1)), []) := by
  intro pattern res ws ee fs replaced h1 hm
  have hg : getVersionNumber replaced res fs = (.ok (.num (-1)), []) := by
    simp [getVersionNumber, hm]
  refine ⟨?_, hg⟩
  simp only [resolveString]
  rw [h1]
  dsimp only
  rw [hg]
  rfl

/-- Witness for claim C5: a marker-free pattern resolves to itself even
against a filesystem on which every operation would fail. -/
theorem c5_witness :
    resolveString (some (lit "output.stl")) (lit "/a/b.scad") none none fsErr
      = (.ok (lit "output.stl"), [], []) := by
  exact (c5_no_marker_no_io (some (lit "output.stl")) (lit "/a/b.scad") none none fsErr
    (lit "output.stl") (by decide) (by decide)).1

/-- Claim C6. For a placeholder name outside the enumerated set (brace-free
and newline-free, so that it parses as one placeholder), the evaluator
returns the exact original placeholder text, and running the whole scanner on
that text yields the same text again, so the echo is idempotent. -/
theorem c6_unknown_placeholder_echoes :
    ∀ (name res w : Str) (ee : Option Str),
      name ∉ supportedNames →
      '}' ∉ name → '\n' ∉ name →
      evaluateSingleVariable (phText name) name res (some w) ee = .ok (phText name)
    ∧ replaceVarsE (fun m x => evaluateSingleVariable m x res (some w) ee) (phText name)
        = .ok (phText name) := by
  intro name res w ee hn hc hnl
  simp only [supportedNames, List.mem_cons, List.not_mem_nil, or_false, not_or] at hn
  obtain ⟨h1, h2, h3, h4, h5, h6, h7, h8, h9, h10, h11⟩ := hn
  have heval : evaluateSingleVariable (phText name) name res (some w) ee = .ok (phText name) := by
    simp [evaluateSingleVariable, h1, h2, h3, h4, h5, h6, h7, h8, h9, h10]
  exact ⟨heval, replaceVarsE_placeholder _ name (phText name) hc hnl heval⟩

/-- Witness for claim C6: the unknown name noMatch echoes through the
evaluator and through the full placeholder scan. -/
theorem c6_witness :
    evaluateSingleVariable (phText (lit "noMatch")) (lit "noMatch") (lit "/proj/src/part.scad")
        (some (lit "/proj")) (some (lit "stl")) = .ok (phText (lit "noMatch"))
  ∧ replaceVarsE
        (fun m x => evaluateSingleVariable m x (lit "/proj/src/part.scad") (some (lit "/proj"))
          (some (lit "stl")))
        (phText (lit "noMatch")) = .ok (phText (lit "noMatch")) := by
  exact c6_unknown_placeholder_echoes (lit "noMatch") (lit "/proj/src/part.scad") (lit "/proj")
    (some (lit "stl")) (by decide) (by decide) (by decide)

/-- Claim C7. The derived regular expression splits the basename at the first
version marker into literal parts around the capture group of one-or-more
digits with non-zero first digit; consequently any value it captures is at
least 1, and an embedded number with a leading zero is not matched. -/
theorem c7_capture_positive :
    ∀ (bn pre post file : Str) (n : Nat),
      splitMarker bn = some (pre, post) →
      execRe pre post file = some n →
      1 ≤ n := by
  intro bn pre post file n _ h
  obtain ⟨i, _, hm⟩ := execRe_some_matchAt pre post file n h
  exact matchAt_ge_one pre post _ n hm

/-- Witness for claim C7: the entry part_v12.stl is captured as 12, which is
at least 1 by the claim theorem, while the leading-zero entry part_v012.stl
is not matched at all. -/
theorem c7_witness :
    execRe (lit "part_v") (lit ".stl") (lit "part_v12.stl") = some 12
  ∧ 1 ≤ 12
  ∧ execRe (lit "part_v") (lit ".stl") (lit "part_v012.stl") = none := by
  refine ⟨by decide, ?_, by decide⟩
  exact c7_capture_positive (lit "part_v" ++ markerStr ++ lit ".stl") (lit "part_v") (lit ".stl")
    (lit "part_v12.stl") 12 (by decide) (by decide)

/-- Claim C8. When the pattern contains the version marker, the scanner
touches exactly the directory given by the directory component of the
pattern when it is absolute, and otherwise by the pattern resolved against
the directory of the context file; the trace is the existence check, then
a single non-recursive directory creation exactly when the directory is
absent, then the listing. -/
theorem c8_destination_dir :
    ∀ (pattern res : Str) (fs : Fs) (d : Str),
      containsMarker pattern = true →
      d = (if isAbsolute pattern then dirname pattern
           else dirname (joinPath (dirname res) pattern)) →
      (getVersionNumber pattern res fs).2
        = FsOp.existsCheck d
            :: ((if fs.existsDir d then [] else [FsOp.mkdir d]) ++ [FsOp.readdir d]) := by
  intro pattern res fs d hm hd
  have hde : d = exportDir pattern res := hd
  subst hde
  simp only [getVersionNumber, hm, if_true]
  rcases h : fs.readdirRes (exportDir pattern res) with e | files <;> simp

/-- Witness for claim C8: a relative pattern under /proj/src with the
directory absent gives the trace existence check, creation, listing. -/
theorem c8_witness :
    (getVersionNumber (lit "part_v" ++ markerStr ++ lit ".stl") (lit "/proj/src/part.scad")
        (fsAbsent [])).2
      = [FsOp.existsCheck (lit "/proj/src"), FsOp.mkdir (lit "/proj/src"),
         FsOp.readdir (lit "/proj/src")] := by
  rw [c8_destination_dir (lit "part_v" ++ markerStr ++ lit ".stl") (lit "/proj/src/part.scad")
    (fsAbsent []) (lit "/proj/src") (by decide) (by decide)]
  decide

/-- Claim C9. When the scanner resolves with a non-negative integer, the
resolver returns the intermediate string with the global marker replacement
applied, and the result contains no occurrence of the version marker at all,
so every occurrence, not only the first, has been replaced by the decimal
representation. -/
theorem c9_replaces_every_marker :
    ∀ (pattern : Option Str) (res : Str) (ws exportExt : Option Str) (fs : Fs)
      (replaced : Str) (v : Int),
      replaceVarsE (fun m x => evaluateSingleVariable m x res ws exportExt)
          (pattern.getD defaultPattern) = .ok replaced →
      (getVersionNumber replaced res fs).1 = .ok (.num v) →
      0 ≤ v →
      (resolveString pattern res ws exportExt fs).1
          = .ok (replaceMarkerAll (jsToString (.num v)) replaced)
    ∧ containsSub markerStr (replaceMarkerAll (jsToString (.num v)) replaced) = false := by
  intro pattern res ws ee fs replaced v h1 h2 hv
  constructor
  · simp only [resolveString]
    rw [h1]
    dsimp only
    rcases hgv : getVersionNumber replaced res fs with ⟨r, ops⟩
    rw [hgv] at h2
    dsimp only at h2
    subst h2
    dsimp only
    rw [if_neg ?_, if_neg ?_]
    · intro hq; injection hq with hq'; omega
    · intro hq; injection hq with hq'; omega
  · have hrepl : jsToString (.num v) = natDigits v.toNat := by
      simp only [jsToString]
      rw [if_neg (not_lt.2 hv)]
    rw [hrepl]
    exact replaceMarkerAll_no_marker (natDigits v.toNat) replaced
      (natDigits_ne_nil v.toNat) (natDigits_digits v.toNat)

/-- Witness for claim C9: a pattern with two version markers resolves both of
them, giving part_1_1.stl with no marker left. -/
theorem c9_witness :
    (resolveString (some c9Pat) (lit "/proj/src/part.scad") (some (lit "/proj"))
        (some (lit "stl")) (fsWith [])).1 = .ok (lit "part_1_1.stl")
  ∧ containsSub markerStr (lit "part_1_1.stl") = false := by
  have h := c9_replaces_every_marker (some c9Pat) (lit "/proj/src/part.scad")
    (some (lit "/proj")) (some (lit "stl")) (fsWith []) c9Replaced 1
    (by decide) (by decide) (by decide)
  refine ⟨?_, by decide⟩
  rw [h.1]
  decide

/-- Claim C10. The derived regular expression is unanchored: any directory
entry containing a matching substring also matches after adding an arbitrary
prefix and suffix around it, so such an entry still contributes a captured
number to the scan. -/
theorem c10_unanchored_regex :
    ∀ (pre post file p s : Str) (n : Nat),
      execRe pre post file = some n →
      ∃ m, execRe pre post (p ++ file ++ s) = some m := by
  intro pre post file p s n h
  obtain ⟨i, hi, hm⟩ := execRe_some_matchAt pre post file n h
  have hdrop : (p ++ file ++ s).drop (p.length + i) = file.drop i ++ s := by
    rw [List.append_assoc, List.drop_append i, List.drop_append_of_le_length hi]
  have hsome : (matchAt pre post ((p ++ file ++ s).drop (p.length + i))).isSome = true := by
    rw [hdrop]
    exact matchAt_append_right pre post (file.drop i) s n hm
  have := execRe_of_matchAt pre post (p ++ file ++ s) (p.length + i) hsome
  exact Option.isSome_iff_exists.1 this

/-- Witness for claim C10: surrounding part_v5.stl with junk still matches,
and a directory whose only entry is AAApart_v5.stlBBB yields next version 6. -/
theorem c10_witness :
    (∃ m, execRe (lit "part_v") (lit ".stl")
        (lit "AAA" ++ lit "part_v5.stl" ++ lit "BBB") = some m)
  ∧ (getVersionNumber (lit "part_v" ++ markerStr ++ lit ".stl") (lit "/proj/src/part.scad")
      (fsWith [lit "AAApart_v5.stlBBB"])).1 = .ok (.num 6) := by
  constructor
  · exact c10_unanchored_regex (lit "part_v") (lit ".stl") (lit "part_v5.stl")
      (lit "AAA") (lit "BBB") 5 (by decide)
  · decide

end VariableResolver
